import Mathlib

/-!
Verification of the gamma prediction-market engine
(`programs/gamma/src/state/market.rs` and `programs/gamma/src/instructions/`).

Machine integers are embedded as `Nat` with explicit bound checks:
`u64` checked ops fail above `2^64 - 1`, `u128` ops above `2^128 - 1`,
and the `U256` invariant arithmetic above `2^256 - 1`.  Rust `Result`
becomes `Except Err`; a mutating method on `&mut self` becomes a function
returning the memory state at exit together with the `Except` result, so
that the state reached by a failing call is observable.

The `common` crate's `constants` and `utils::Decimal` modules are not part
of the sources; the constants `MAX_OUTCOMES`, `FEE_BPS` and
`MAX_WITHDRAW_BPS` are therefore threaded as explicit parameters, and the
two `Decimal` computations used by the engine are modelled from the spec
(see `mintedQuadratic` and `refundQuadratic`).
-/

set_option maxRecDepth 100000

namespace Gamma

/-- Largest value representable in a `u64`. -/
def u64Max : Nat := 2 ^ 64 - 1

/-- First value not representable in a `u128`. -/
def u128Bound : Nat := 2 ^ 128

/-- First value not representable in a `U256`. -/
def u256Bound : Nat := 2 ^ 256

/-- Modelled from the spec: the 1e9 price/percentage scale factor
(`D9_U128` from the missing `common::constants` module); the spec fixes it
as "scaled by 1e9 (i.e., 100% = 1_000_000_000)". -/
def D9 : Nat := 10 ^ 9

/-- `u64::checked_add`. -/
def checkedAdd64 (a b : Nat) : Option Nat :=
  if a + b ≤ u64Max then some (a + b) else none

/-- `u64::checked_sub` (also correct for `u128`: underflow only). -/
def checkedSub (a b : Nat) : Option Nat :=
  if b ≤ a then some (a - b) else none

/-- `u128::checked_add`. -/
def checkedAdd128 (a b : Nat) : Option Nat :=
  if a + b < u128Bound then some (a + b) else none

/-- `u128::checked_mul`. -/
def checkedMul128 (a b : Nat) : Option Nat :=
  if a * b < u128Bound then some (a * b) else none

/-- `U256::checked_mul`. -/
def checkedMul256 (a b : Nat) : Option Nat :=
  if a * b < u256Bound then some (a * b) else none

/-- `checked_div`: `None` exactly on a zero divisor (`U256`/`u128`). -/
def checkedDiv (a b : Nat) : Option Nat :=
  if b = 0 then none else some (a / b)

/-- Error codes of `common::errors::ErrorCode` used by the engine
(`errors.rs` plus the variants referenced by the instruction modules). -/
inductive Err where
  | TooManyOutcomes
  | OutcomeBelowZero
  | MathOverflow
  | InvalidOutcomeIndex
  | BurnIsZero
  | BurnIsMoreThanSupply
  | InsufficientFunds
  | InsufficientVaultFunds
  | DepositIsZero
  | MarketExpired
  | VaultTransferFailed
  deriving DecidableEq, Repr

/-- The `Market` account of `state/market.rs`.  The `[u64; MAX_OUTCOMES]`
arrays become lists (reads default to `0`), the 32-byte big-endian
`invariant` buffer is carried as the `U256` value it encodes (the codec
`invariant_u256`/`set_invariant_u256` is a bijection below `2^256`), and
the identity fields (`admin`, `label`, bumps, padding) owned by the
account layer are omitted. -/
structure Market where
  invariant : Nat
  reserves : List Nat
  supplies : List Nat
  scale : Nat
  initialized_at : Nat
  resolve_at : Int
  undistributed_fees : Nat
  num_outcomes : Nat
  deriving DecidableEq, Repr

/-- The loop of `recompute_invariant` / `init_market`:
`prod = 1; for i in 0..n { prod = prod.checked_mul(reserves[i])? }`.
`prodUpTo rs n` is the accumulator after the first `n` iterations. -/
def prodUpTo (rs : List Nat) : Nat → Option Nat
  | 0 => some 1
  | n + 1 =>
    match prodUpTo rs n with
    | none => none
    | some acc => checkedMul256 acc (rs.getD n 0)

/-- The loop of `product_except`: as `prodUpTo` but index `idx` is
skipped (`continue`). -/
def prodExceptUpTo (rs : List Nat) (idx : Nat) : Nat → Option Nat
  | 0 => some 1
  | n + 1 =>
    match prodExceptUpTo rs idx n with
    | none => none
    | some acc => if n = idx then some acc else checkedMul256 acc (rs.getD n 0)

/-- The total-reserves loop of `outcome_price` / `liquidity_percentages`:
`total = 0; for i in 0..n { total = total.checked_add(reserves[i] as u128)? }`. -/
def sumUpTo (rs : List Nat) : Nat → Option Nat
  | 0 => some 0
  | n + 1 =>
    match sumUpTo rs n with
    | none => none
    | some acc => checkedAdd128 acc (rs.getD n 0)

/-- `Market::recompute_invariant`: validates `n ≤ MAX_OUTCOMES`, recomputes
`invariant = ∏ reserves[0..n)` with `U256` checked multiplication, stores
the product and also returns it. -/
def Market.recompute_invariant (MAX_OUTCOMES : Nat) (m : Market) :
    Except Err (Market × Nat) :=
  if m.num_outcomes ≤ MAX_OUTCOMES then
    match prodUpTo m.reserves m.num_outcomes with
    | none => .error .MathOverflow
    | some p => .ok ({ m with invariant := p }, p)
  else .error .InvalidOutcomeIndex

/-- `Market::product_except`. -/
def Market.product_except (MAX_OUTCOMES : Nat) (m : Market) (idx : Nat) :
    Except Err Nat :=
  if m.num_outcomes ≤ MAX_OUTCOMES then
    if idx < m.num_outcomes then
      match prodExceptUpTo m.reserves idx m.num_outcomes with
      | none => .error .MathOverflow
      | some p => .ok p
    else .error .InvalidOutcomeIndex
  else .error .InvalidOutcomeIndex

/-- `Market::required_reserve_for`: `invariant / product_except idx`,
guarded to `0` when the denominator is zero. -/
def Market.required_reserve_for (MAX_OUTCOMES : Nat) (m : Market) (idx : Nat) :
    Except Err Nat :=
  if m.num_outcomes ≤ MAX_OUTCOMES then
    if idx < m.num_outcomes then
      match m.product_except MAX_OUTCOMES idx with
      | .error e => .error e
      | .ok denom =>
        if denom = 0 then .ok 0
        else
          match checkedDiv m.invariant denom with
          | none => .error .MathOverflow
          | some q => .ok q
    else .error .InvalidOutcomeIndex
  else .error .InvalidOutcomeIndex

/-- Modelled from the spec: the minted amount of the quadratic-cost buy,
computed by the missing `common::utils::Decimal` type — "minted amount on
a deposit is `sqrt(s₀² + 2·deposit) − s₀`, computed via fixed-point square
root (Newton/ integer nth-root), floor-rounded back to raw token units".
The D18 intermediates are exact on integer operands, so the single floor
is the final conversion. -/
def mintedQuadratic (s0 amountIn : Nat) : Nat :=
  Nat.sqrt (s0 * s0 + 2 * amountIn) - s0

/-- Modelled from the spec: the refund of the quadratic-cost sell,
computed by the missing `common::utils::Decimal` type — "the symmetric
quadratic-cost difference `cost(s₀) − cost(s₀ − burn_amount)`" with
`cost(s) = ½ s²` held exactly in D18 fixed point and floor-rounded once
when converted back to raw token units. -/
def refundQuadratic (s0 burn : Nat) : Nat :=
  (s0 * s0 - (s0 - burn) * (s0 - burn)) / 2

/-- `Market::buy_outcome` (`state/market.rs`): adds `amount_in` to the
reserve, mints by the quadratic-cost formula, adds the minted amount to
the supply and recomputes the invariant.  The returned `Market` is the
memory state at exit (mutations before a failing step persist, as for the
Rust `&mut self` receiver). -/
def Market.buy_outcome (MAX_OUTCOMES : Nat) (m : Market)
    (outcome_index : Nat) (amount_in : Nat) : Market × Except Err Nat :=
  match checkedAdd64 (m.reserves.getD outcome_index 0) amount_in with
  | none => (m, .error .MathOverflow)
  | some r' =>
    let m1 := { m with reserves := m.reserves.set outcome_index r' }
    let s0 := m1.supplies.getD outcome_index 0
    let amount_out := mintedQuadratic s0 amount_in
    if amount_out > u64Max then (m1, .error .MathOverflow) else
    match checkedAdd64 s0 amount_out with
    | none => (m1, .error .MathOverflow)
    | some s' =>
      let m2 := { m1 with supplies := m1.supplies.set outcome_index s' }
      match m2.recompute_invariant MAX_OUTCOMES with
      | .error e => (m2, .error e)
      | .ok (m3, _) => (m3, .ok amount_out)

/-- `Market::sell_outcome` (`state/market.rs`): checks the burn against
the supply, computes the quadratic refund, returns a zero payout early
when the refund floors to zero, otherwise checks the vault balance,
accrues the basis-point fee to `undistributed_fees`, decreases the reserve
by the full refund and the supply by the burn, recomputes the invariant
and returns the net payout.  `fee as u64` is the Rust truncating cast. -/
def Market.sell_outcome (MAX_OUTCOMES FEE_BPS : Nat) (m : Market)
    (outcome_index : Nat) (burn_amount : Nat) (vault_lamports : Nat) :
    Market × Except Err Nat :=
  let supply_before := m.supplies.getD outcome_index 0
  if burn_amount ≤ supply_before then
    let refund := refundQuadratic supply_before burn_amount
    if refund > u64Max then (m, .error .MathOverflow) else
    if refund = 0 then
      match checkedSub supply_before burn_amount with
      | none => (m, .error .MathOverflow)
      | some s' =>
        let m1 := { m with supplies := m.supplies.set outcome_index s' }
        match m1.recompute_invariant MAX_OUTCOMES with
        | .error _ => (m1, .error .MathOverflow)
        | .ok (m2, _) => (m2, .ok 0)
    else
      if refund ≤ vault_lamports then
        match checkedMul128 refund FEE_BPS with
        | none => (m, .error .MathOverflow)
        | some p =>
          let fee := p / 10000 % 2 ^ 64
          match checkedSub refund fee with
          | none => (m, .error .MathOverflow)
          | some net_payout =>
            match checkedAdd64 m.undistributed_fees fee with
            | none => (m, .error .MathOverflow)
            | some f' =>
              let m1 := { m with undistributed_fees := f' }
              match checkedSub (m1.reserves.getD outcome_index 0) refund with
              | none => (m1, .error .MathOverflow)
              | some r' =>
                let m2 := { m1 with reserves := m1.reserves.set outcome_index r' }
                match checkedSub (m2.supplies.getD outcome_index 0) burn_amount with
                | none => (m2, .error .MathOverflow)
                | some s' =>
                  let m3 := { m2 with supplies := m2.supplies.set outcome_index s' }
                  match m3.recompute_invariant MAX_OUTCOMES with
                  | .error e => (m3, .error e)
                  | .ok (m4, _) => (m4, .ok net_payout)
      else (m, .error .InsufficientVaultFunds)
  else (m, .error .BurnIsMoreThanSupply)

/-- `Market::outcome_price`: implied probability `reserve[idx] * 1e9 /
Σ reserves` with `u128` intermediates, `0` when the total is zero, clamped
to `u64::MAX`. -/
def Market.outcome_price (MAX_OUTCOMES : Nat) (m : Market)
    (outcome_index : Nat) : Except Err Nat :=
  if m.num_outcomes ≤ MAX_OUTCOMES then
    if outcome_index < m.num_outcomes then
      match sumUpTo m.reserves m.num_outcomes with
      | none => .error .MathOverflow
      | some total =>
        if total = 0 then .ok 0
        else
          match checkedMul128 (m.reserves.getD outcome_index 0) D9 with
          | none => .error .MathOverflow
          | some p =>
            match checkedDiv p total with
            | none => .error .MathOverflow
            | some price => .ok (if price > u64Max then u64Max else price)
    else .error .InvalidOutcomeIndex
  else .error .InvalidOutcomeIndex

/-- The numeric body of the `init_market` instruction
(`instructions/init_market.rs`): Anchor's `load_init` zeroes the account;
the handler validates `num_outcomes ≤ MAX_OUTCOMES`, stores
`num_outcomes` and `scale`, and computes the initial invariant as the
checked product of the (all-zero) active reserves.  The account-layer
work (label, PDA/mint wiring) is outside the engine boundary and not
modelled. -/
def init_market (MAX_OUTCOMES : Nat) (num_outcomes : Nat) (scale : Nat) :
    Except Err Market :=
  let m0 : Market :=
    { invariant := 0
      reserves := List.replicate MAX_OUTCOMES 0
      supplies := List.replicate MAX_OUTCOMES 0
      scale := 0
      initialized_at := 0
      resolve_at := 0
      undistributed_fees := 0
      num_outcomes := 0 }
  if num_outcomes ≤ MAX_OUTCOMES then
    let m1 := { m0 with num_outcomes := num_outcomes, scale := scale }
    match prodUpTo m1.reserves m1.num_outcomes with
    | none => .error .MathOverflow
    | some p => .ok { m1 with invariant := p }
  else .error .TooManyOutcomes

/-- The settlement phase of the `sell` instruction handler
(`instructions/sell.rs`, after the burn CPI): the quadratic refund with
its checked `u64` conversion, the zero-refund early return, the
basis-point fee (computed but — unlike `sell_outcome` — never accrued to
`undistributed_fees`; it merely stays in the vault), the vault-balance
check, the reserve/supply writes, the invariant recomputation and the
net payout handed to the lamport transfer. -/
def sellSettle (MAX_OUTCOMES FEE_BPS : Nat) (m : Market)
    (outcome_index : Nat) (burn_amount : Nat) (vault_lamports : Nat) :
    Market × Except Err Nat :=
  let supply_before := m.supplies.getD outcome_index 0
  let refund := refundQuadratic supply_before burn_amount
  if refund > u64Max then (m, .error .MathOverflow) else
  if refund = 0 then
    match checkedSub (m.supplies.getD outcome_index 0) burn_amount with
    | none => (m, .error .MathOverflow)
    | some s' =>
      let m1 := { m with supplies := m.supplies.set outcome_index s' }
      match m1.recompute_invariant MAX_OUTCOMES with
      | .error _ => (m1, .error .MathOverflow)
      | .ok (m2, _) => (m2, .ok 0)
  else
    match checkedMul128 refund FEE_BPS with
    | none => (m, .error .MathOverflow)
    | some p =>
      let fee := p / 10000 % 2 ^ 64
      match checkedSub refund fee with
      | none => (m, .error .MathOverflow)
      | some net_payout =>
        if vault_lamports ≥ refund then
          match checkedSub (m.reserves.getD outcome_index 0) refund with
          | none => (m, .error .MathOverflow)
          | some r' =>
            let m1 := { m with reserves := m.reserves.set outcome_index r' }
            match checkedSub (m1.supplies.getD outcome_index 0) burn_amount with
            | none => (m1, .error .MathOverflow)
            | some s' =>
              let m2 := { m1 with supplies := m1.supplies.set outcome_index s' }
              match m2.recompute_invariant MAX_OUTCOMES with
              | .error _ => (m2, .error .MathOverflow)
              | .ok (m3, _) => (m3, .ok net_payout)
        else (m, .error .InsufficientVaultFunds)

/-- The `sell` instruction handler (`instructions/sell.rs`): validation
(positive burn, active market, valid index, user token balance, burn
within supply, `MAX_WITHDRAW_BPS` cap), the burn CPI, then the settlement
phase `sellSettle`.  The handler reads no clock — there is no `resolve_at`
comparison anywhere on its path.  `user_balance` is the user's
outcome-token account balance and `vault_lamports` the vault balance, both
supplied by the runtime. -/
def sell (MAX_OUTCOMES FEE_BPS MAX_WITHDRAW_BPS : Nat) (m : Market)
    (outcome_index : Nat) (burn_amount : Nat)
    (user_balance vault_lamports : Nat) : Market × Except Err Nat :=
  if burn_amount > 0 then
    if m.num_outcomes > 0 then
      if outcome_index < m.num_outcomes then
        if user_balance ≥ burn_amount then
          let supply_before := m.supplies.getD outcome_index 0
          if burn_amount ≤ supply_before then
            match checkedMul128 supply_before MAX_WITHDRAW_BPS with
            | none => (m, .error .MathOverflow)
            | some q =>
              let max_burn_allowed := q / 10000 % 2 ^ 64
              if burn_amount > max_burn_allowed then
                (m, .error .BurnIsMoreThanSupply)
              else
                sellSettle MAX_OUTCOMES FEE_BPS m outcome_index burn_amount
                  vault_lamports
          else (m, .error .BurnIsMoreThanSupply)
        else (m, .error .InsufficientFunds)
      else (m, .error .InvalidOutcomeIndex)
    else (m, .error .OutcomeBelowZero)
  else (m, .error .BurnIsZero)

/-! Concrete market states used to instantiate the theorems below. -/

/-- Two outcomes, reserve 0 behind outcome 0 but 200 tokens outstanding:
the quadratic refund of a 100-token burn (15000) exceeds the reserve. -/
def mW1 : Market :=
  { invariant := 0, reserves := [0, 7], supplies := [200, 0], scale := 100000,
    initialized_at := 0, resolve_at := 0, undistributed_fees := 0, num_outcomes := 2 }

/-- One outcome whose reserve is already at the `u64` maximum. -/
def mW1b : Market :=
  { invariant := 0, reserves := [18446744073709551615], supplies := [0], scale := 1,
    initialized_at := 0, resolve_at := 0, undistributed_fees := 0, num_outcomes := 1 }

/-- Five outcomes with reserves of `2586638741762874` each: the reserve
product sits just below `2^256`, so a 2-lamport deposit overflows the
checked `U256` invariant recomputation. -/
def mW1c : Market :=
  { invariant := 0,
    reserves := [2586638741762874, 2586638741762874, 2586638741762874,
      2586638741762874, 2586638741762874],
    supplies := [0, 0, 0, 0, 0], scale := 1,
    initialized_at := 0, resolve_at := 0, undistributed_fees := 0, num_outcomes := 5 }

/-- One outcome with the full `u64::MAX` supply outstanding: burning it
all computes a quadratic refund far above `u64::MAX`, so the refund's
`u64` conversion fails. -/
def mW1d : Market :=
  { invariant := 0, reserves := [0], supplies := [18446744073709551615], scale := 1,
    initialized_at := 0, resolve_at := 0, undistributed_fees := 0, num_outcomes := 1 }

/-- A freshly traded-nothing market: all reserves and supplies zero. -/
def mW3 : Market :=
  { invariant := 0, reserves := [0, 0], supplies := [0, 0], scale := 100000,
    initialized_at := 0, resolve_at := 0, undistributed_fees := 0, num_outcomes := 2 }

/-- Symmetric two-outcome market with empty supplies. -/
def mW4 : Market :=
  { invariant := 0, reserves := [10, 10], supplies := [0, 0], scale := 5,
    initialized_at := 0, resolve_at := 0, undistributed_fees := 0, num_outcomes := 2 }

/-- The state `mW4` reaches after `buy_outcome 0 5`. -/
def mW4post : Market :=
  { invariant := 150, reserves := [15, 10], supplies := [3, 0], scale := 5,
    initialized_at := 0, resolve_at := 0, undistributed_fees := 0, num_outcomes := 2 }

/-- Outcome 0 empty next to a `10^9` reserve: prices are dominated by
outcome 1 and the floor absorbs a 1-lamport buy. -/
def mW5 : Market :=
  { invariant := 0, reserves := [0, 1000000000], supplies := [0, 0], scale := 5,
    initialized_at := 0, resolve_at := 0, undistributed_fees := 0, num_outcomes := 2 }

/-- Fee-bearing sell scenario: burning 100 of 200 tokens refunds 15000. -/
def mW6 : Market :=
  { invariant := 0, reserves := [20000, 3], supplies := [200, 0], scale := 5,
    initialized_at := 0, resolve_at := 0, undistributed_fees := 0, num_outcomes := 2 }

/-- The state `mW6` reaches after the engine sell (`sell_outcome`) of 100
tokens: fee 150 accrued, reserve down by the full 15000 refund. -/
def mW6post : Market :=
  { invariant := 15000, reserves := [5000, 3], supplies := [100, 0], scale := 5,
    initialized_at := 0, resolve_at := 0, undistributed_fees := 150, num_outcomes := 2 }

/-- The state `mW6` reaches after the `sell` instruction handler burns 100
tokens: same refund and payout, but no fee accrual. -/
def mW6postI : Market :=
  { invariant := 15000, reserves := [5000, 3], supplies := [100, 0], scale := 5,
    initialized_at := 0, resolve_at := 0, undistributed_fees := 0, num_outcomes := 2 }

/-- Dust position: supply 1, whose 1-token burn refunds `⌊1/2⌋ = 0`. -/
def mW7 : Market :=
  { invariant := 25, reserves := [5, 5], supplies := [1, 0], scale := 5,
    initialized_at := 0, resolve_at := 0, undistributed_fees := 0, num_outcomes := 2 }

/-- Three outcomes with a zero middle reserve, invariant bytes holding 77. -/
def mW9 : Market :=
  { invariant := 77, reserves := [4, 0, 6], supplies := [0, 0, 0], scale := 5,
    initialized_at := 0, resolve_at := 0, undistributed_fees := 0, num_outcomes := 3 }

/-- A liquid two-outcome market with ten tokens outstanding per outcome. -/
def mW10 : Market :=
  { invariant := 0, reserves := [100, 100], supplies := [10, 10], scale := 5,
    initialized_at := 0, resolve_at := 0, undistributed_fees := 0, num_outcomes := 2 }

/-! Inversion and computation lemmas for the checked primitives. -/

lemma checkedAdd64_eq_some {a b c : Nat} (h : checkedAdd64 a b = some c) :
    c = a + b ∧ a + b ≤ u64Max := by
  unfold checkedAdd64 at h
  split at h <;> simp_all

lemma checkedAdd64_of_le {a b : Nat} (h : a + b ≤ u64Max) :
    checkedAdd64 a b = some (a + b) := by
  simp [checkedAdd64, h]

lemma checkedSub_of_le {a b : Nat} (h : b ≤ a) : checkedSub a b = some (a - b) := by
  simp [checkedSub, h]

lemma checkedMul128_eq_some {a b c : Nat} (h : checkedMul128 a b = some c) :
    c = a * b ∧ a * b < u128Bound := by
  unfold checkedMul128 at h
  split at h <;> simp_all

lemma checkedMul128_of_lt {a b : Nat} (h : a * b < u128Bound) :
    checkedMul128 a b = some (a * b) := by
  simp [checkedMul128, h]

lemma getD_replicate_zero (n i : Nat) : (List.replicate n (0 : Nat)).getD i 0 = 0 := by
  simp [List.getD_eq_getElem?_getD, List.getElem?_replicate]
  split <;> simp

/-- The invariant loop on a prefix of zero reserves yields the zero product. -/
lemma prodUpTo_of_zeros (rs : List Nat) (n : Nat)
    (hz : ∀ j, j < n → rs.getD j 0 = 0) (hn : 0 < n) :
    prodUpTo rs n = some 0 := by
  induction n with
  | zero => omega
  | succ k ih =>
    rcases Nat.eq_zero_or_pos k with hk | hk
    · subst hk
      have h0 := hz 0 (by omega)
      simp only [prodUpTo, h0, checkedMul256]
      norm_num [u256Bound]
    · simp [prodUpTo, ih (fun j hj => hz j (by omega)) hk,
        hz k (by omega), checkedMul256, u256Bound]

/-- A successful `recompute_invariant` only rewrites the invariant bytes
with the checked product of the active reserves. -/
lemma recompute_invariant_eq_ok {MAXO : Nat} {m m' : Market} {p : Nat}
    (h : m.recompute_invariant MAXO = .ok (m', p)) :
    m' = { m with invariant := p } ∧
      prodUpTo m.reserves m.num_outcomes = some p ∧ m.num_outcomes ≤ MAXO := by
  unfold Market.recompute_invariant at h
  split at h
  · rename_i hle
    split at h
    · exact absurd h (by simp)
    · rename_i p' heq
      rw [Except.ok.injEq, Prod.mk.injEq] at h
      obtain ⟨h1, h2⟩ := h
      subst h2
      exact ⟨h1.symm, heq, hle⟩
  · exact absurd h (by simp)

lemma recompute_invariant_of_prod {MAXO : Nat} {m : Market} {p : Nat}
    (hn : m.num_outcomes ≤ MAXO)
    (hp : prodUpTo m.reserves m.num_outcomes = some p) :
    m.recompute_invariant MAXO = .ok ({ m with invariant := p }, p) := by
  unfold Market.recompute_invariant
  rw [if_pos hn, hp]

/-- C9: for every market state and `idx < num_outcomes`,
`required_reserve_for idx` returns 0 when `product_except idx` is zero and
`invariant / product_except idx` otherwise; the division is guarded, so no
division-by-zero failure is possible (a failing `product_except` — checked
`U256` multiplication overflow — is propagated unchanged). -/
theorem required_reserve_guarded_division (MAXO : Nat) (m : Market) (idx : Nat)
    (hidx : idx < m.num_outcomes) (hn : m.num_outcomes ≤ MAXO) :
    (∀ e, m.product_except MAXO idx = .error e →
        m.required_reserve_for MAXO idx = .error e) ∧
    ∀ d, m.product_except MAXO idx = .ok d →
        m.required_reserve_for MAXO idx = .ok (if d = 0 then 0 else m.invariant / d) := by
  unfold Market.required_reserve_for
  rw [if_pos hn, if_pos hidx]
  refine ⟨fun e he => by rw [he], fun d hd => ?_⟩
  rw [hd]
  by_cases h0 : d = 0
  · simp [h0]
  · simp [h0, checkedDiv]

/-- Witness for C9 on `mW9`: `product_except 1 = 24` gives
`required_reserve_for 1 = ⌊77/24⌋ = 3`, and the zero reserve behind
outcome 1 makes `product_except 0 = 0`, so `required_reserve_for 0 = 0`. -/
theorem required_reserve_guarded_division_witness :
    mW9.required_reserve_for 4 1 = .ok 3 ∧ mW9.required_reserve_for 4 0 = .ok 0 := by
  constructor
  · have h := (required_reserve_guarded_division 4 mW9 1 (by decide) (by decide)).2 24 (by rfl)
    simpa using h
  · have h := (required_reserve_guarded_division 4 mW9 0 (by decide) (by decide)).2 0 (by rfl)
    simpa using h

/-- C8 counterexample: with `num_outcomes = 0` (which passes the
`num_outcomes ≤ MAX_OUTCOMES` check), `init_market` succeeds but stores
the empty product `1` as the invariant, not `0`. -/
theorem init_market_zero_outcomes_cex :
    init_market 4 0 100000 =
      .ok { invariant := 1, reserves := List.replicate 4 0,
            supplies := List.replicate 4 0, scale := 100000, initialized_at := 0,
            resolve_at := 0, undistributed_fees := 0, num_outcomes := 0 } ∧
    (1 : Nat) ≠ 0 :=
  ⟨rfl, by decide⟩

/-- C8 amended: for every `1 ≤ num_outcomes ≤ MAX_OUTCOMES`, `init_market`
produces a market with all reserves and supplies zero and stored invariant
zero (for `num_outcomes = 0` the stored invariant is the empty product 1). -/
theorem init_market_zeroed (MAXO n scale : Nat) (h1 : 1 ≤ n) (h2 : n ≤ MAXO) :
    init_market MAXO n scale =
      .ok { invariant := 0, reserves := List.replicate MAXO 0,
            supplies := List.replicate MAXO 0, scale := scale, initialized_at := 0,
            resolve_at := 0, undistributed_fees := 0, num_outcomes := n } := by
  unfold init_market
  rw [if_pos h2]
  have hz : ∀ j, j < n → (List.replicate MAXO (0 : Nat)).getD j 0 = 0 :=
    fun j _ => getD_replicate_zero MAXO j
  simp only [prodUpTo_of_zeros _ n hz h1]

/-- Witness for C8 at `num_outcomes = 2`, `MAX_OUTCOMES = 4`. -/
theorem init_market_zeroed_witness :
    init_market 4 2 100000 =
      .ok { invariant := 0, reserves := List.replicate 4 0,
            supplies := List.replicate 4 0, scale := 100000, initialized_at := 0,
            resolve_at := 0, undistributed_fees := 0, num_outcomes := 2 } :=
  init_market_zeroed 4 2 100000 (by decide) (by decide)

/-- C7: a sell whose quadratic refund floors to zero (with a positive burn
not exceeding the supply and a valid index) succeeds, decrements only the
supply, recomputes the invariant, returns a zero payout and leaves the
reserves and `undistributed_fees` untouched. -/
theorem sell_zero_refund_succeeds (MAXO FB : Nat) (m : Market)
    (idx burn vault P : Nat)
    (hidx : idx < m.num_outcomes) (hn : m.num_outcomes ≤ MAXO) (hb : 0 < burn)
    (hbs : burn ≤ m.supplies.getD idx 0)
    (hr : refundQuadratic (m.supplies.getD idx 0) burn = 0)
    (hP : prodUpTo m.reserves m.num_outcomes = some P) :
    m.sell_outcome MAXO FB idx burn vault =
      ({ m with supplies := m.supplies.set idx (m.supplies.getD idx 0 - burn),
                invariant := P }, .ok 0) := by
  simp only [Market.sell_outcome]
  rw [if_pos hbs, hr]
  rw [if_neg (by decide)]
  rw [if_pos rfl]
  rw [checkedSub_of_le hbs]
  dsimp only
  rw [recompute_invariant_of_prod
    (m := { m with supplies := m.supplies.set idx (m.supplies.getD idx 0 - burn) }) hn hP]

/-- Witness for C7 on the dust market `mW7`: burning the single token of
outcome 0 refunds `⌊1/2⌋ = 0` but still succeeds with payout 0. -/
theorem sell_zero_refund_succeeds_witness :
    mW7.sell_outcome 2 100 0 1 100 =
      ({ mW7 with supplies := mW7.supplies.set 0 (mW7.supplies.getD 0 0 - 1),
                  invariant := 25 }, .ok 0) :=
  sell_zero_refund_succeeds 2 100 mW7 0 1 100 25 (by decide) (by decide)
    (by decide) (by decide) (by decide) (by rfl)

/-- C2 (evidence of the defect): the `sell` instruction handler reads no
clock and performs no `resolve_at` comparison: the same otherwise-valid
sell succeeds, with identical payout, on a market whose deadline lies a
million seconds in the past and on one whose deadline lies in the future
— every current time is at or after the first deadline, yet nothing is
rejected. -/
theorem sell_succeeds_after_deadline :
    (sell 4 100 5000 { mW10 with resolve_at := -1000000 } 0 1 10 100).2 = .ok 9 ∧
    (sell 4 100 5000 { mW10 with resolve_at := 1000000 } 0 1 10 100).2 = .ok 9 :=
  ⟨rfl, rfl⟩

/-- Any burn above the (untruncated) withdrawal cap makes the `sell`
handler fail: either an earlier validation already rejects, or the cap
comparison does. -/
lemma sell_rejects_above_cap (MAXO FB MWB : Nat) (m : Market)
    (idx burn ub vl : Nat)
    (hgt : m.supplies.getD idx 0 * MWB / 10000 < burn) :
    (sell MAXO FB MWB m idx burn ub vl).2.isOk = false := by
  simp only [sell]
  split
  · split
    · split
      · split
        · split
          · split
            · rfl
            · rename_i q hq
              split
              · rfl
              · rename_i hcap
                exfalso
                obtain ⟨hq', _⟩ := checkedMul128_eq_some hq
                have h1 : q / 10000 % 2 ^ 64 ≤ q / 10000 := Nat.mod_le _ _
                have h2 : q / 10000 < burn := by
                  rw [hq']
                  exact hgt
                exact absurd (lt_of_le_of_lt (le_trans (Nat.le_of_not_lt hcap) h1) h2)
                  (lt_irrefl burn)
          · rfl
        · rfl
      · rfl
    · rfl
  · rfl

/-- C10: the `sell` handler rejects every `burn_amount` strictly above
`⌊supplies[idx] · MAX_WITHDRAW_BPS / 10000⌋`, so whenever
`MAX_WITHDRAW_BPS < 10000` a single sell can never burn the entire
outstanding supply of an outcome, even though `burn_amount ≤
supplies[idx]` holds. -/
theorem sell_withdraw_cap (MAXO FB MWB : Nat) (m : Market)
    (idx burn ub vl : Nat) :
    (m.supplies.getD idx 0 * MWB / 10000 < burn →
      (sell MAXO FB MWB m idx burn ub vl).2.isOk = false) ∧
    (MWB < 10000 → burn = m.supplies.getD idx 0 →
      (sell MAXO FB MWB m idx burn ub vl).2.isOk = false) := by
  constructor
  · exact sell_rejects_above_cap MAXO FB MWB m idx burn ub vl
  · intro hMWB hbe
    rcases Nat.eq_zero_or_pos (m.supplies.getD idx 0) with hz | hz
    · rw [hbe, hz]
      rfl
    · refine sell_rejects_above_cap MAXO FB MWB m idx burn ub vl ?_
      rw [hbe]
      rw [Nat.div_lt_iff_lt_mul (by norm_num)]
      exact mul_lt_mul_of_pos_left hMWB hz

/-- Witness for C10: on `mW10` (supply 10) with `MAX_WITHDRAW_BPS = 5000`,
a burn of 6 exceeds the cap `⌊10·5000/10000⌋ = 5` and is rejected, and a
full-supply burn of 10 is rejected as well. -/
theorem sell_withdraw_cap_witness :
    (sell 4 100 5000 mW10 0 6 10 100).2.isOk = false ∧
    (sell 4 100 5000 mW10 0 10 10 100).2.isOk = false :=
  ⟨(sell_withdraw_cap 4 100 5000 mW10 0 6 10 100).1 (by decide),
   (sell_withdraw_cap 4 100 5000 mW10 0 10 10 100).2 (by decide) (by decide)⟩

/-- C1 counterexample, both operations: on `mW1`, `sell_outcome` fails
(subtracting the 15000-lamport refund from the empty reserve underflows)
*after* the 150-lamport fee has already been accrued; and on `mW1c`,
`buy_outcome` fails in the invariant recomputation (the reserve product
reaches `2^256`) *after* `reserves[0]` has already been increased and the
minted 2 tokens written to `supplies[0]`.  In both cases the state
returned by the failing call differs from the input state. -/
theorem trade_partial_write_cex :
    ((mW1.sell_outcome 4 100 0 100 20000).2 = .error .MathOverflow ∧
     (mW1.sell_outcome 4 100 0 100 20000).1.undistributed_fees ≠
       mW1.undistributed_fees) ∧
    ((Market.buy_outcome 5 mW1c 0 2).2 = .error .MathOverflow ∧
     (Market.buy_outcome 5 mW1c 0 2).1.reserves.getD 0 0 ≠
       mW1c.reserves.getD 0 0) := by
  have hm : mintedQuadratic (mW1c.supplies.getD 0 0) 2 = 2 := by
    norm_num [mintedQuadratic, mW1c]
  refine ⟨⟨rfl, by decide⟩, ?_, ?_⟩
  · simp only [Market.buy_outcome, hm]
    rfl
  · simp only [Market.buy_outcome, hm]
    decide

/-- C1 amended: failures raised before the first state write do leave the
state unchanged — `buy_outcome` failing the checked reserve addition, and
`sell_outcome` failing the burn/supply validation, the refund `u64`
conversion, or the vault-funds check, all return the input state
untouched.  (Failures after the commit phase has begun keep the earlier
writes — the counterexample shows `sell_outcome` failing the reserve
subtraction after accruing the fee, and `buy_outcome` failing the
invariant recomputation after writing the reserve and supply.) -/
theorem trade_validation_failures_atomic (MAXO FB : Nat) (m : Market)
    (idx a burn vault : Nat) :
    (checkedAdd64 (m.reserves.getD idx 0) a = none →
      m.buy_outcome MAXO idx a = (m, .error .MathOverflow)) ∧
    (m.supplies.getD idx 0 < burn →
      m.sell_outcome MAXO FB idx burn vault = (m, .error .BurnIsMoreThanSupply)) ∧
    (burn ≤ m.supplies.getD idx 0 →
      u64Max < refundQuadratic (m.supplies.getD idx 0) burn →
      m.sell_outcome MAXO FB idx burn vault = (m, .error .MathOverflow)) ∧
    (burn ≤ m.supplies.getD idx 0 →
      refundQuadratic (m.supplies.getD idx 0) burn ≠ 0 →
      refundQuadratic (m.supplies.getD idx 0) burn ≤ u64Max →
      vault < refundQuadratic (m.supplies.getD idx 0) burn →
      m.sell_outcome MAXO FB idx burn vault = (m, .error .InsufficientVaultFunds)) := by
  refine ⟨?_, ?_, ?_, ?_⟩
  · intro h
    simp only [Market.buy_outcome]
    rw [h]
  · intro h
    simp only [Market.sell_outcome]
    rw [if_neg (by omega)]
  · intro h1 h2
    simp only [Market.sell_outcome]
    rw [if_pos h1]
    rw [if_pos (show refundQuadratic (m.supplies.getD idx 0) burn > u64Max from h2)]
  · intro h1 h2 h3 h4
    simp only [Market.sell_outcome]
    rw [if_pos h1]
    rw [if_neg (by omega)]
    rw [if_neg h2]
    rw [if_neg (by omega)]

/-- Witness for C1's amended theorem: a reserve already at `u64::MAX`
rejects a buy unchanged (`mW1b`), an overdrawn burn rejects a sell
unchanged (`mW7`), a refund above `u64::MAX` rejects a full-supply sell
unchanged (`mW1d`), and an underfunded vault rejects a fee-bearing sell
unchanged (`mW1`). -/
theorem trade_validation_failures_atomic_witness :
    mW1b.buy_outcome 1 0 1 = (mW1b, .error .MathOverflow) ∧
    mW7.sell_outcome 2 100 0 2 100 = (mW7, .error .BurnIsMoreThanSupply) ∧
    mW1d.sell_outcome 1 100 0 18446744073709551615 0 =
      (mW1d, .error .MathOverflow) ∧
    mW1.sell_outcome 4 100 0 100 3 = (mW1, .error .InsufficientVaultFunds) :=
  ⟨(trade_validation_failures_atomic 1 100 mW1b 0 1 0 0).1 (by decide),
   (trade_validation_failures_atomic 2 100 mW7 0 0 2 100).2.1 (by decide),
   (trade_validation_failures_atomic 1 100 mW1d 0 0 18446744073709551615 0).2.2.1
     (by decide) (by decide),
   (trade_validation_failures_atomic 4 100 mW1 0 0 100 3).2.2.2 (by decide)
     (by decide) (by decide) (by decide)⟩

lemma checkedSub_eq_some {a b c : Nat} (h : checkedSub a b = some c) :
    c = a - b ∧ b ≤ a := by
  unfold checkedSub at h
  split at h <;> simp_all

/-- A successful `buy_outcome` factors through a successful
`recompute_invariant` whose output state is the final state. -/
lemma buy_outcome_ok_recompute {MAXO : Nat} {m m' : Market} {idx a out : Nat}
    (h : m.buy_outcome MAXO idx a = (m', .ok out)) :
    ∃ (m2 : Market) (p : Nat), m2.recompute_invariant MAXO = .ok (m', p) := by
  simp only [Market.buy_outcome] at h
  split at h
  · exact absurd h (by simp)
  · split at h
    · exact absurd h (by simp)
    · split at h
      · exact absurd h (by simp)
      · split at h
        · exact absurd h (by simp)
        · rename_i m3 p hrec
          rw [Prod.mk.injEq] at h
          obtain ⟨h1, _⟩ := h
          subst h1
          exact ⟨_, p, hrec⟩

/-- A successful `sell_outcome` (on either of its two success paths)
factors through a successful `recompute_invariant` whose output state is
the final state. -/
lemma sell_outcome_ok_recompute {MAXO FB : Nat} {m m' : Market}
    {idx burn vault out : Nat}
    (h : m.sell_outcome MAXO FB idx burn vault = (m', .ok out)) :
    ∃ (m2 : Market) (p : Nat), m2.recompute_invariant MAXO = .ok (m', p) := by
  simp only [Market.sell_outcome] at h
  split at h
  · split at h
    · exact absurd h (by simp)
    · split at h
      · split at h
        · exact absurd h (by simp)
        · split at h
          · exact absurd h (by simp)
          · rename_i m3 p hrec
            rw [Prod.mk.injEq] at h
            obtain ⟨h1, _⟩ := h
            subst h1
            exact ⟨_, p, hrec⟩
      · split at h
        · split at h
          · exact absurd h (by simp)
          · split at h
            · exact absurd h (by simp)
            · split at h
              · exact absurd h (by simp)
              · split at h
                · exact absurd h (by simp)
                · split at h
                  · exact absurd h (by simp)
                  · split at h
                    · exact absurd h (by simp)
                    · rename_i m3 p hrec
                      rw [Prod.mk.injEq] at h
                      obtain ⟨h1, _⟩ := h
                      subst h1
                      exact ⟨_, p, hrec⟩
        · exact absurd h (by simp)
  · exact absurd h (by simp)

/-- Re-running `recompute_invariant` on the state a successful
recomputation produced reproduces the stored invariant and leaves the
state unchanged. -/
lemma recompute_invariant_idem {MAXO : Nat} {m0 m' : Market} {p : Nat}
    (h : m0.recompute_invariant MAXO = .ok (m', p)) :
    m'.recompute_invariant MAXO = .ok (m', m'.invariant) := by
  obtain ⟨h1, h2, h3⟩ := recompute_invariant_eq_ok h
  subst h1
  exact recompute_invariant_of_prod (m := { m0 with invariant := p }) h3 h2

/-- C4: after every successful `buy_outcome` or `sell_outcome`, the stored
invariant equals the checked product of the active reserves of the
resulting state — re-running `recompute_invariant` on the post-state
returns that exact state together with its stored invariant. -/
theorem invariant_consistency_after_trade (MAXO FB : Nat) (m m' : Market)
    (idx a burn vault out : Nat) :
    (m.buy_outcome MAXO idx a = (m', .ok out) →
      m'.recompute_invariant MAXO = .ok (m', m'.invariant) ∧
      prodUpTo m'.reserves m'.num_outcomes = some m'.invariant) ∧
    (m.sell_outcome MAXO FB idx burn vault = (m', .ok out) →
      m'.recompute_invariant MAXO = .ok (m', m'.invariant) ∧
      prodUpTo m'.reserves m'.num_outcomes = some m'.invariant) := by
  constructor
  · intro h
    obtain ⟨m2, p, hrec⟩ := buy_outcome_ok_recompute h
    have hidem := recompute_invariant_idem hrec
    exact ⟨hidem, (recompute_invariant_eq_ok hidem).2.1⟩
  · intro h
    obtain ⟨m2, p, hrec⟩ := sell_outcome_ok_recompute h
    have hidem := recompute_invariant_idem hrec
    exact ⟨hidem, (recompute_invariant_eq_ok hidem).2.1⟩

lemma getD_set_self {rs : List Nat} {i a : Nat} (h : i < rs.length) :
    (rs.set i a).getD i 0 = a := by
  rw [List.getD_eq_getElem?_getD, List.getElem?_set]
  simp [h]

lemma getD_set_ne {rs : List Nat} {i j a : Nat} (h : i ≠ j) :
    (rs.set i a).getD j 0 = rs.getD j 0 := by
  rw [List.getD_eq_getElem?_getD, List.getElem?_set, if_neg h,
    ← List.getD_eq_getElem?_getD]

/-- A supply and a deposit that both fit in `u64` produce a post-buy
supply `s0 + minted = ⌊√(s0² + 2a)⌋` that still fits in `u64`. -/
lemma minted_le {s0 a : Nat} (hs : s0 ≤ u64Max) (ha : a ≤ u64Max) :
    s0 + mintedQuadratic s0 a ≤ u64Max := by
  have h1 : s0 ≤ Nat.sqrt (s0 * s0 + 2 * a) := by
    have h := Nat.sqrt_le_sqrt (show s0 * s0 ≤ s0 * s0 + 2 * a by omega)
    rwa [Nat.sqrt_eq] at h
  have h2 : Nat.sqrt (s0 * s0 + 2 * a) < 2 ^ 64 := by
    rw [Nat.sqrt_lt]
    have hs' : s0 ≤ 18446744073709551615 := by
      have : u64Max = 18446744073709551615 := by norm_num [u64Max]
      omega
    have ha' : a ≤ 18446744073709551615 := by
      have : u64Max = 18446744073709551615 := by norm_num [u64Max]
      omega
    calc s0 * s0 + 2 * a
        ≤ 18446744073709551615 * 18446744073709551615 +
            2 * 18446744073709551615 :=
          Nat.add_le_add (Nat.mul_le_mul hs' hs') (by omega)
      _ < 2 ^ 64 * 2 ^ 64 := by norm_num
  unfold mintedQuadratic
  have h3 : u64Max = 2 ^ 64 - 1 := rfl
  omega

/-- On an all-zero active-reserve prefix, the invariant loop succeeds
after a single position is seeded with a `u64` value: every partial
product stays in `{0, 1, a}`. -/
lemma prodUpTo_set_zeros (rs : List Nat) (idx a n : Nat) (ha : a ≤ u64Max)
    (hz : ∀ j, j < n → rs.getD j 0 = 0) :
    ∃ P, prodUpTo (rs.set idx a) n = some P := by
  have ha256 : a < u256Bound := lt_of_le_of_lt ha (by norm_num [u64Max, u256Bound])
  have key : ∀ k, k ≤ n → ∃ P, prodUpTo (rs.set idx a) k = some P ∧
      (P = 0 ∨ P = 1 ∨ (P = a ∧ idx < k)) := by
    intro k
    induction k with
    | zero => exact fun _ => ⟨1, rfl, Or.inr (Or.inl rfl)⟩
    | succ j ih =>
      intro hk
      obtain ⟨P, hP, hPc⟩ := ih (by omega)
      rcases eq_or_ne idx j with he | hne
      · subst he
        by_cases hlen : idx < rs.length
        · have hv : (rs.set idx a).getD idx 0 = a := getD_set_self hlen
          rcases hPc with h0 | h1 | ⟨_, hlt⟩
          · subst h0
            refine ⟨0, ?_, Or.inl rfl⟩
            simp only [prodUpTo, hP, hv]
            unfold checkedMul256
            rw [Nat.zero_mul, if_pos (by norm_num [u256Bound])]
          · subst h1
            refine ⟨a, ?_, Or.inr (Or.inr ⟨rfl, by omega⟩)⟩
            simp only [prodUpTo, hP, hv]
            unfold checkedMul256
            rw [Nat.one_mul, if_pos ha256]
          · omega
        · have hv : (rs.set idx a).getD idx 0 = 0 := by
            rw [List.set_eq_of_length_le (by omega), hz idx (by omega)]
          refine ⟨0, ?_, Or.inl rfl⟩
          simp only [prodUpTo, hP, hv]
          unfold checkedMul256
          rw [Nat.mul_zero, if_pos (by norm_num [u256Bound])]
      · have hv : (rs.set idx a).getD j 0 = 0 := by
          rw [getD_set_ne hne, hz j (by omega)]
        refine ⟨0, ?_, Or.inl rfl⟩
        simp only [prodUpTo, hP, hv]
        unfold checkedMul256
        rw [Nat.mul_zero, if_pos (by norm_num [u256Bound])]
  obtain ⟨P, hP, _⟩ := key n le_rfl
  exact ⟨P, hP⟩

/-- C3 counterexample: on the all-zero market `mW3` (scale 100000), a buy
of 4 lamports on outcome 0 succeeds but mints `⌊√8⌋ = 2 ≠ 4` and leaves
reserve 1 at `0`, not at `scale`: no bootstrap seeding exists in the
code. -/
theorem buy_empty_market_cex :
    (Market.buy_outcome 2 mW3 0 4).2 = .ok 2 ∧ (2 : Nat) ≠ 4 ∧
    (Market.buy_outcome 2 mW3 0 4).1.reserves.getD 1 0 = 0 ∧
    mW3.scale = 100000 := by
  have hm : mintedQuadratic (mW3.supplies.getD 0 0) 4 = 2 := by
    norm_num [mintedQuadratic, mW3]
  refine ⟨?_, by decide, ?_, rfl⟩
  · simp only [Market.buy_outcome, hm]
    rfl
  · simp only [Market.buy_outcome, hm]
    rfl

/-- C3 amended: on a market whose active reserves are all zero, a
successful buy of `a > 0` on a valid outcome `idx` adds `a` to
`reserves[idx]`, leaves every other active reserve at zero (there is no
seeding to `scale`), and mints `⌊√(s₀² + 2a)⌋ − s₀` tokens per the
quadratic-cost policy — not `a`. -/
theorem buy_empty_market_no_seed (MAXO : Nat) (m : Market) (idx a : Nat)
    (hn : m.num_outcomes ≤ MAXO) (hidx : idx < m.num_outcomes)
    (hz : ∀ j, j < m.num_outcomes → m.reserves.getD j 0 = 0)
    (ha : 0 < a) (ha64 : a ≤ u64Max) (hs : m.supplies.getD idx 0 ≤ u64Max) :
    (m.buy_outcome MAXO idx a).2 =
      .ok (mintedQuadratic (m.supplies.getD idx 0) a) ∧
    (m.buy_outcome MAXO idx a).1.reserves = m.reserves.set idx a ∧
    ∀ j, j < m.num_outcomes → j ≠ idx →
      (m.buy_outcome MAXO idx a).1.reserves.getD j 0 = 0 := by
  have hr0 : m.reserves.getD idx 0 = 0 := hz idx hidx
  have hca : checkedAdd64 (m.reserves.getD idx 0) a = some a := by
    rw [hr0]
    rw [checkedAdd64_of_le (by omega)]
    norm_num
  have hminted := minted_le hs ha64
  obtain ⟨P, hP⟩ := prodUpTo_set_zeros m.reserves idx a m.num_outcomes ha64 hz
  have hbuy : m.buy_outcome MAXO idx a =
      ({ m with
          reserves := m.reserves.set idx a,
          supplies := m.supplies.set idx (m.supplies.getD idx 0 +
            mintedQuadratic (m.supplies.getD idx 0) a),
          invariant := P },
        .ok (mintedQuadratic (m.supplies.getD idx 0) a)) := by
    simp only [Market.buy_outcome]
    rw [hca]
    dsimp only
    rw [if_neg (by omega : ¬ mintedQuadratic (m.supplies.getD idx 0) a > u64Max)]
    rw [checkedAdd64_of_le hminted]
    dsimp only
    have hrec : Market.recompute_invariant MAXO
        { m with
            reserves := m.reserves.set idx a,
            supplies := m.supplies.set idx (m.supplies.getD idx 0 +
              mintedQuadratic (m.supplies.getD idx 0) a) } =
        .ok ({ m with
                reserves := m.reserves.set idx a,
                supplies := m.supplies.set idx (m.supplies.getD idx 0 +
                  mintedQuadratic (m.supplies.getD idx 0) a),
                invariant := P }, P) :=
      recompute_invariant_of_prod hn hP
    rw [hrec]
  rw [hbuy]
  refine ⟨rfl, rfl, fun j hj hne => ?_⟩
  dsimp only
  rw [getD_set_ne (fun he => hne he.symm)]
  exact hz j hj

/-- Witness for C3's amended theorem on `mW3`: the 4-lamport buy mints 2,
sets reserve 0 to 4 and keeps reserve 1 at zero. -/
theorem buy_empty_market_no_seed_witness :
    (Market.buy_outcome 2 mW3 0 4).2 =
      .ok (mintedQuadratic (mW3.supplies.getD 0 0) 4) ∧
    (Market.buy_outcome 2 mW3 0 4).1.reserves = mW3.reserves.set 0 4 ∧
    (Market.buy_outcome 2 mW3 0 4).1.reserves.getD 1 0 = 0 := by
  have h := buy_empty_market_no_seed 2 mW3 0 4 (by decide) (by decide)
    (by decide) (by decide) (by decide) (by decide)
  exact ⟨h.1, h.2.1, h.2.2 1 (by decide) (by decide)⟩

/-- Full characterization of a successful fee-bearing `sell_outcome`:
fee accrued to `undistributed_fees`, reserve reduced by the full refund,
supply reduced by the burn, net payout refund-minus-fee. -/
lemma sell_outcome_ok_fee {MAXO FB : Nat} {m m' : Market}
    {idx burn vault net : Nat}
    (hr0 : refundQuadratic (m.supplies.getD idx 0) burn ≠ 0)
    (h : m.sell_outcome MAXO FB idx burn vault = (m', .ok net)) :
    refundQuadratic (m.supplies.getD idx 0) burn ≤ m.reserves.getD idx 0 ∧
    refundQuadratic (m.supplies.getD idx 0) burn ≤ u64Max ∧
    m'.undistributed_fees = m.undistributed_fees +
      refundQuadratic (m.supplies.getD idx 0) burn * FB / 10000 % 2 ^ 64 ∧
    m'.reserves = m.reserves.set idx
      (m.reserves.getD idx 0 - refundQuadratic (m.supplies.getD idx 0) burn) ∧
    m'.supplies = m.supplies.set idx (m.supplies.getD idx 0 - burn) ∧
    net = refundQuadratic (m.supplies.getD idx 0) burn -
      refundQuadratic (m.supplies.getD idx 0) burn * FB / 10000 % 2 ^ 64 := by
  simp only [Market.sell_outcome] at h
  repeat' split at h
  all_goals simp only [Prod.mk.injEq, Except.ok.injEq, reduceCtorEq,
    false_and, and_false] at h
  rename_i hbs hleM hvault x5 q hq x4 net1 hnet x3 f1 hf x2 r1 hres x1 s1 hsup
    xE m4 p2 hrec
  obtain ⟨hm4, hnet2⟩ := h
  obtain ⟨hq1, _⟩ := checkedMul128_eq_some hq
  subst hq1
  obtain ⟨hnet1, _⟩ := checkedSub_eq_some hnet
  obtain ⟨hf1, _⟩ := checkedAdd64_eq_some hf
  obtain ⟨hr1, hRle⟩ := checkedSub_eq_some hres
  obtain ⟨hs1, _⟩ := checkedSub_eq_some hsup
  obtain ⟨hm4eq, _, _⟩ := recompute_invariant_eq_ok hrec
  subst hm4 hnet2 hnet1 hf1 hr1 hs1 hm4eq
  exact ⟨hRle, Nat.le_of_not_lt hleM, rfl, rfl, rfl, rfl⟩

/-- Full characterization of a successful fee-bearing `sellSettle` (the
instruction's settlement): identical arithmetic, but `undistributed_fees`
is never written. -/
lemma sellSettle_ok_fee {MAXO FB : Nat} {m m' : Market}
    {idx burn vault net : Nat}
    (hr0 : refundQuadratic (m.supplies.getD idx 0) burn ≠ 0)
    (h : sellSettle MAXO FB m idx burn vault = (m', .ok net)) :
    refundQuadratic (m.supplies.getD idx 0) burn ≤ m.reserves.getD idx 0 ∧
    refundQuadratic (m.supplies.getD idx 0) burn ≤ u64Max ∧
    m'.undistributed_fees = m.undistributed_fees ∧
    m'.reserves = m.reserves.set idx
      (m.reserves.getD idx 0 - refundQuadratic (m.supplies.getD idx 0) burn) ∧
    m'.supplies = m.supplies.set idx (m.supplies.getD idx 0 - burn) ∧
    net = refundQuadratic (m.supplies.getD idx 0) burn -
      refundQuadratic (m.supplies.getD idx 0) burn * FB / 10000 % 2 ^ 64 := by
  simp only [sellSettle] at h
  repeat' split at h
  all_goals simp only [Prod.mk.injEq, Except.ok.injEq, reduceCtorEq,
    false_and, and_false] at h
  rename_i hleM x5 q hq x4 net1 hnet hvault x2 r1 hres x1 s1 hsup
    xE m4 p2 hrec
  obtain ⟨hm4, hnet2⟩ := h
  obtain ⟨hq1, _⟩ := checkedMul128_eq_some hq
  subst hq1
  obtain ⟨hnet1, _⟩ := checkedSub_eq_some hnet
  obtain ⟨hr1, hRle⟩ := checkedSub_eq_some hres
  obtain ⟨hs1, _⟩ := checkedSub_eq_some hsup
  obtain ⟨hm4eq, _, _⟩ := recompute_invariant_eq_ok hrec
  subst hm4 hnet2 hnet1 hr1 hs1 hm4eq
  exact ⟨hRle, Nat.le_of_not_lt hleM, rfl, rfl, rfl, rfl⟩

/-- A successful `sell` instruction factors through its settlement phase. -/
lemma sell_ok_settle {MAXO FB MWB : Nat} {m m' : Market}
    {idx burn ub vl net : Nat}
    (h : sell MAXO FB MWB m idx burn ub vl = (m', .ok net)) :
    sellSettle MAXO FB m idx burn vl = (m', .ok net) := by
  simp only [sell] at h
  split at h
  · split at h
    · split at h
      · split at h
        · split at h
          · split at h
            · exact absurd h (by simp)
            · split at h
              · exact absurd h (by simp)
              · exact h
          · exact absurd h (by simp)
        · exact absurd h (by simp)
      · exact absurd h (by simp)
    · exact absurd h (by simp)
  · exact absurd h (by simp)

/-- Under a fee of at most 10000 basis points, the truncating `as u64`
cast of the fee is the identity. -/
lemma fee_cast_eq {R FB : Nat} (hR : R ≤ u64Max) (hfb : FB ≤ 10000) :
    R * FB / 10000 % 2 ^ 64 = R * FB / 10000 := by
  have h1 : R * FB / 10000 ≤ R := by
    calc R * FB / 10000 ≤ R * 10000 / 10000 :=
          Nat.div_le_div_right (Nat.mul_le_mul_left _ hfb)
    _ = R := Nat.mul_div_cancel R (by norm_num)
  apply Nat.mod_eq_of_lt
  have : u64Max < 2 ^ 64 := by norm_num [u64Max]
  omega

/-- C6 amended: for every successful sell with a positive quadratic
refund `R`, the fee is `⌊R·FEE_BPS/10000⌋`, `reserves[idx]` decreases by
the full refund, `supplies[idx]` decreases by `burn_amount`, and the net
payout is `R` minus the fee; the fee is added to `undistributed_fees` by
the engine method `sell_outcome`, while the `sell` instruction handler
leaves `undistributed_fees` unchanged (the fee merely remains in the
vault). -/
theorem sell_fee_accounting (MAXO FB MWB : Nat) (m mE mI : Market)
    (idx burn ub vault netE netI : Nat) (hfb : FB ≤ 10000)
    (hr0 : refundQuadratic (m.supplies.getD idx 0) burn ≠ 0) :
    (m.sell_outcome MAXO FB idx burn vault = (mE, .ok netE) →
      mE.undistributed_fees = m.undistributed_fees +
        refundQuadratic (m.supplies.getD idx 0) burn * FB / 10000 ∧
      refundQuadratic (m.supplies.getD idx 0) burn ≤ m.reserves.getD idx 0 ∧
      mE.reserves = m.reserves.set idx
        (m.reserves.getD idx 0 - refundQuadratic (m.supplies.getD idx 0) burn) ∧
      mE.supplies = m.supplies.set idx (m.supplies.getD idx 0 - burn) ∧
      netE = refundQuadratic (m.supplies.getD idx 0) burn -
        refundQuadratic (m.supplies.getD idx 0) burn * FB / 10000) ∧
    (sell MAXO FB MWB m idx burn ub vault = (mI, .ok netI) →
      mI.undistributed_fees = m.undistributed_fees ∧
      refundQuadratic (m.supplies.getD idx 0) burn ≤ m.reserves.getD idx 0 ∧
      mI.reserves = m.reserves.set idx
        (m.reserves.getD idx 0 - refundQuadratic (m.supplies.getD idx 0) burn) ∧
      mI.supplies = m.supplies.set idx (m.supplies.getD idx 0 - burn) ∧
      netI = refundQuadratic (m.supplies.getD idx 0) burn -
        refundQuadratic (m.supplies.getD idx 0) burn * FB / 10000) := by
  constructor
  · intro h
    obtain ⟨h1, h2, h3, h4, h5, h6⟩ := sell_outcome_ok_fee hr0 h
    rw [fee_cast_eq h2 hfb] at h3 h6
    exact ⟨h3, h1, h4, h5, h6⟩
  · intro h
    obtain ⟨h1, h2, h3, h4, h5, h6⟩ := sellSettle_ok_fee hr0 (sell_ok_settle h)
    rw [fee_cast_eq h2 hfb] at h6
    exact ⟨h3, h1, h4, h5, h6⟩

/-- C6 counterexample to the claim as stated: through the live `sell`
instruction, the fee-bearing sell on `mW6` succeeds (refund 15000, fee
150, payout 14850) yet `undistributed_fees` is *not* increased by the
fee. -/
theorem sell_instr_fee_not_accrued_cex :
    (sell 2 100 10000 mW6 0 100 200 20000).2 = .ok 14850 ∧
    refundQuadratic (mW6.supplies.getD 0 0) 100 * 100 / 10000 = 150 ∧
    (sell 2 100 10000 mW6 0 100 200 20000).1.undistributed_fees ≠
      mW6.undistributed_fees + 150 :=
  ⟨rfl, rfl, by decide⟩

/-- Witness for C6 on `mW6`: the engine sell accrues the 150-lamport fee,
the instruction sell does not; both pay out 14850. -/
theorem sell_fee_accounting_witness :
    (mW6post.undistributed_fees = mW6.undistributed_fees +
        refundQuadratic (mW6.supplies.getD 0 0) 100 * 100 / 10000 ∧
      refundQuadratic (mW6.supplies.getD 0 0) 100 ≤ mW6.reserves.getD 0 0 ∧
      mW6post.reserves = mW6.reserves.set 0
        (mW6.reserves.getD 0 0 - refundQuadratic (mW6.supplies.getD 0 0) 100) ∧
      mW6post.supplies = mW6.supplies.set 0 (mW6.supplies.getD 0 0 - 100) ∧
      (14850 : Nat) = refundQuadratic (mW6.supplies.getD 0 0) 100 -
        refundQuadratic (mW6.supplies.getD 0 0) 100 * 100 / 10000) ∧
    (mW6postI.undistributed_fees = mW6.undistributed_fees ∧
      refundQuadratic (mW6.supplies.getD 0 0) 100 ≤ mW6.reserves.getD 0 0 ∧
      mW6postI.reserves = mW6.reserves.set 0
        (mW6.reserves.getD 0 0 - refundQuadratic (mW6.supplies.getD 0 0) 100) ∧
      mW6postI.supplies = mW6.supplies.set 0 (mW6.supplies.getD 0 0 - 100) ∧
      (14850 : Nat) = refundQuadratic (mW6.supplies.getD 0 0) 100 -
        refundQuadratic (mW6.supplies.getD 0 0) 100 * 100 / 10000) :=
  ⟨(sell_fee_accounting 2 100 10000 mW6 mW6post mW6postI 0 100 200 20000 14850 14850
      (by decide) (by decide)).1 rfl,
   (sell_fee_accounting 2 100 10000 mW6 mW6post mW6postI 0 100 200 20000 14850 14850
      (by decide) (by decide)).2 rfl⟩

/-- Witness for C4: the buy `mW4 → mW4post` (invariant `15·10 = 150`) and
the sell `mW6 → mW6post` (invariant `5000·3 = 15000`). -/
theorem invariant_consistency_after_trade_witness :
    (mW4post.recompute_invariant 2 = .ok (mW4post, 150) ∧
      prodUpTo mW4post.reserves mW4post.num_outcomes = some 150) ∧
    (mW6post.recompute_invariant 2 = .ok (mW6post, 15000) ∧
      prodUpTo mW6post.reserves mW6post.num_outcomes = some 15000) :=
  ⟨(invariant_consistency_after_trade 2 100 mW4 mW4post 0 5 0 0 3).1 (by
      have hm : mintedQuadratic (mW4.supplies.getD 0 0) 5 = 3 := by
        norm_num [mintedQuadratic, mW4]
      simp only [Market.buy_outcome, hm]
      rfl),
   (invariant_consistency_after_trade 2 100 mW6 mW6post 0 0 100 20000 14850).2 (by rfl)⟩

/-- The total-reserves loop succeeds on any `u64`-bounded prefix of at
most 255 outcomes (the `u8` bound) and computes the plain sum. -/
lemma sumUpTo_eq (rs : List Nat) (n : Nat)
    (hb : ∀ i, i < n → rs.getD i 0 ≤ u64Max) (hn : n ≤ 255) :
    ∃ S, sumUpTo rs n = some S ∧ S = ∑ i ∈ Finset.range n, rs.getD i 0 := by
  have key : ∀ k, k ≤ n → ∃ S, sumUpTo rs k = some S ∧
      (S = ∑ i ∈ Finset.range k, rs.getD i 0) ∧ S ≤ k * u64Max := by
    intro k
    induction k with
    | zero => exact fun _ => ⟨0, rfl, by simp, by simp⟩
    | succ j ih =>
      intro hk
      obtain ⟨S, hS, hSe, hSb⟩ := ih (by omega)
      have hv : rs.getD j 0 ≤ u64Max := hb j (by omega)
      have hstep : S + rs.getD j 0 ≤ (j + 1) * u64Max := by
        calc S + rs.getD j 0 ≤ j * u64Max + u64Max := Nat.add_le_add hSb hv
          _ = (j + 1) * u64Max := by ring
      have hbound : S + rs.getD j 0 < u128Bound := by
        have h2 : (j + 1) * u64Max ≤ 256 * u64Max :=
          Nat.mul_le_mul_right _ (by omega)
        have h3 : 256 * u64Max < u128Bound := by norm_num [u64Max, u128Bound]
        omega
      refine ⟨S + rs.getD j 0, ?_, ?_, hstep⟩
      · simp only [sumUpTo, hS]
        unfold checkedAdd128
        rw [if_pos hbound]
      · rw [Finset.sum_range_succ, ← hSe]
  obtain ⟨S, h1, h2, _⟩ := key n le_rfl
  exact ⟨S, h1, h2⟩

lemma term_le_sum {rs : List Nat} {n i : Nat} (hi : i < n) :
    rs.getD i 0 ≤ ∑ j ∈ Finset.range n, rs.getD j 0 :=
  Finset.single_le_sum (f := fun j => rs.getD j 0)
    (fun _ _ => Nat.zero_le _) (Finset.mem_range.mpr hi)

/-- What `outcome_price` returns on a well-formed market: the 1e9-scaled
share of the total, the clamp to `u64::MAX` never firing because the
share is at most 1e9. -/
lemma outcome_price_eq {MAXO : Nat} {m : Market} {i S : Nat}
    (hn : m.num_outcomes ≤ MAXO) (hi : i < m.num_outcomes)
    (hS : sumUpTo m.reserves m.num_outcomes = some S)
    (hterm : m.reserves.getD i 0 ≤ S)
    (hbound : m.reserves.getD i 0 ≤ u64Max) :
    m.outcome_price MAXO i =
      .ok (if S = 0 then 0 else m.reserves.getD i 0 * D9 / S) := by
  unfold Market.outcome_price
  rw [if_pos hn, if_pos hi, hS]
  dsimp only
  by_cases h0 : S = 0
  · rw [if_pos h0, if_pos h0]
  · rw [if_neg h0, if_neg h0]
    have hm : checkedMul128 (m.reserves.getD i 0) D9 =
        some (m.reserves.getD i 0 * D9) := by
      apply checkedMul128_of_lt
      calc m.reserves.getD i 0 * D9 ≤ u64Max * D9 :=
            Nat.mul_le_mul_right _ hbound
        _ < u128Bound := by norm_num [u64Max, D9, u128Bound]
    rw [hm]
    dsimp only
    have hdiv : checkedDiv (m.reserves.getD i 0 * D9) S =
        some (m.reserves.getD i 0 * D9 / S) := by
      unfold checkedDiv
      rw [if_neg h0]
    rw [hdiv]
    dsimp only
    have hle : m.reserves.getD i 0 * D9 / S ≤ D9 := by
      calc m.reserves.getD i 0 * D9 / S ≤ S * D9 / S :=
            Nat.div_le_div_right (Nat.mul_le_mul_right _ hterm)
        _ = D9 := Nat.mul_div_cancel_left D9 (Nat.pos_of_ne_zero h0)
    have hd9 : D9 ≤ u64Max := by norm_num [D9, u64Max]
    rw [if_neg (by omega)]

/-- Increasing the numerator term and the denominator by the same amount
never lowers a scaled floor share: `⌊rC/S⌋ ≤ ⌊(r+a)C/(S+a)⌋` for
`r ≤ S`. -/
lemma div_scale_mono {r S a C : Nat} (hrS : r ≤ S) (hS : 0 < S) :
    r * C / S ≤ (r + a) * C / (S + a) := by
  have h1 : r * C / S * S ≤ r * C := Nat.div_mul_le_self _ _
  have h2 : r * C / S ≤ C := by
    calc r * C / S ≤ S * C / S := Nat.div_le_div_right (Nat.mul_le_mul_right _ hrS)
      _ = C := Nat.mul_div_cancel_left C hS
  rw [Nat.le_div_iff_mul_le (by omega : 0 < S + a)]
  calc r * C / S * (S + a) = r * C / S * S + r * C / S * a := by ring
    _ ≤ r * C + C * a := Nat.add_le_add h1 (by
        calc r * C / S * a ≤ C * a := Nat.mul_le_mul_right _ h2)
    _ = (r + a) * C := by ring

/-- A successful `buy_outcome` writes exactly `reserves[idx] + amount`
into slot `idx` (which still fits in `u64`) and changes nothing else
about the outcome count. -/
lemma buy_outcome_ok_reserves {MAXO : Nat} {m m' : Market} {idx a out : Nat}
    (h : m.buy_outcome MAXO idx a = (m', .ok out)) :
    m'.reserves = m.reserves.set idx (m.reserves.getD idx 0 + a) ∧
    m.reserves.getD idx 0 + a ≤ u64Max ∧
    m'.num_outcomes = m.num_outcomes := by
  simp only [Market.buy_outcome] at h
  repeat' split at h
  all_goals simp only [Prod.mk.injEq, Except.ok.injEq, reduceCtorEq,
    false_and, and_false] at h
  rename_i r1 hadd hle x1 s1 hs xE m3 p hrec
  obtain ⟨hm3, _⟩ := h
  obtain ⟨hr, hrb⟩ := checkedAdd64_eq_some hadd
  obtain ⟨hm3eq, _, _⟩ := recompute_invariant_eq_ok hrec
  subst hm3 hm3eq hr
  exact ⟨rfl, hrb, rfl⟩

/-- Summing the active prefix after adding `a` to one active slot adds
exactly `a` to the total. -/
lemma sum_set_add {rs : List Nat} {n idx a : Nat} (hidx : idx < n)
    (hlen : idx < rs.length) :
    ∑ j ∈ Finset.range n, (rs.set idx (rs.getD idx 0 + a)).getD j 0 =
      (∑ j ∈ Finset.range n, rs.getD j 0) + a := by
  have hmem : idx ∈ Finset.range n := Finset.mem_range.mpr hidx
  rw [Finset.sum_eq_sum_diff_singleton_add hmem,
    Finset.sum_eq_sum_diff_singleton_add hmem (fun j => rs.getD j 0)]
  have hcong : ∑ j ∈ Finset.range n \ {idx},
      (rs.set idx (rs.getD idx 0 + a)).getD j 0 =
      ∑ j ∈ Finset.range n \ {idx}, rs.getD j 0 := by
    refine Finset.sum_congr rfl fun j hj => ?_
    have hne : idx ≠ j := by
      intro he
      subst he
      simp at hj
    exact getD_set_ne hne
  rw [hcong, getD_set_self hlen]
  omega

/-- C5 amended: a successful buy of `a > 0` on outcome `idx` weakly
increases `outcome_price idx` and weakly decreases `outcome_price j` for
every other active outcome `j` (prices are 1e9-scaled floor shares of the
total reserves, so they move with the total; neither strict increase of
price `idx` nor invariance of price `j` holds in general). -/
theorem buy_price_monotone (MAXO : Nat) (m m2 : Market)
    (idx j a out pi pi2 pj pj2 : Nat)
    (hbuy : m.buy_outcome MAXO idx a = (m2, .ok out))
    (ha : 0 < a) (hidx : idx < m.num_outcomes) (hj : j < m.num_outcomes)
    (hne : j ≠ idx) (hn : m.num_outcomes ≤ MAXO) (h255 : m.num_outcomes ≤ 255)
    (hlen : idx < m.reserves.length)
    (hb : ∀ i, i < m.num_outcomes → m.reserves.getD i 0 ≤ u64Max)
    (hpi : m.outcome_price MAXO idx = .ok pi)
    (hpi2 : m2.outcome_price MAXO idx = .ok pi2)
    (hpj : m.outcome_price MAXO j = .ok pj)
    (hpj2 : m2.outcome_price MAXO j = .ok pj2) :
    pi ≤ pi2 ∧ pj2 ≤ pj := by
  obtain ⟨hres, hradd, hnum⟩ := buy_outcome_ok_reserves hbuy
  obtain ⟨S, hS, hSe⟩ := sumUpTo_eq m.reserves m.num_outcomes hb h255
  have hb2 : ∀ i, i < m2.num_outcomes → m2.reserves.getD i 0 ≤ u64Max := by
    intro i hi
    rw [hnum] at hi
    rw [hres]
    rcases eq_or_ne idx i with he | hne2
    · subst he
      rw [getD_set_self hlen]
      exact hradd
    · rw [getD_set_ne hne2]
      exact hb i hi
  obtain ⟨S2, hS2, hS2e⟩ :=
    sumUpTo_eq m2.reserves m2.num_outcomes hb2 (by rw [hnum]; exact h255)
  have hsum : S2 = S + a := by
    rw [hS2e, hSe, hnum, hres]
    exact sum_set_add hidx hlen
  have hterm_i : m.reserves.getD idx 0 ≤ S := hSe ▸ term_le_sum hidx
  have hterm_j : m.reserves.getD j 0 ≤ S := hSe ▸ term_le_sum hj
  have hpost_i : m2.reserves.getD idx 0 = m.reserves.getD idx 0 + a := by
    rw [hres]
    exact getD_set_self hlen
  have hpost_j : m2.reserves.getD j 0 = m.reserves.getD j 0 := by
    rw [hres]
    exact getD_set_ne (fun he => hne he.symm)
  have hidx2 : idx < m2.num_outcomes := by omega
  have hj2 : j < m2.num_outcomes := by omega
  have hterm2_i : m2.reserves.getD idx 0 ≤ S2 := by
    rw [hS2e]
    exact term_le_sum hidx2
  have hterm2_j : m2.reserves.getD j 0 ≤ S2 := by
    rw [hS2e]
    exact term_le_sum hj2
  have hpiE := outcome_price_eq hn hidx hS hterm_i (hb idx hidx)
  have hpjE := outcome_price_eq hn hj hS hterm_j (hb j hj)
  have hn2 : m2.num_outcomes ≤ MAXO := by omega
  have hpi2E := outcome_price_eq (m := m2) (i := idx) hn2 hidx2 hS2
    hterm2_i (hb2 idx hidx2)
  have hpj2E := outcome_price_eq (m := m2) (i := j) hn2 hj2 hS2
    hterm2_j (hb2 j hj2)
  rw [hpi] at hpiE
  rw [hpj] at hpjE
  rw [hpi2] at hpi2E
  rw [hpj2] at hpj2E
  rw [Except.ok.injEq] at hpiE hpjE hpi2E hpj2E
  subst hpiE hpjE hpi2E hpj2E
  rw [hpost_i, hpost_j, hsum]
  by_cases h0 : S = 0
  · subst h0
    have hrj : m.reserves.getD j 0 = 0 := by omega
    have hza : ¬ (0 : Nat) + a = 0 := by omega
    constructor
    · simp
    · simp only [if_neg hza, hrj]
      simp
  · have hSpos : 0 < S := Nat.pos_of_ne_zero h0
    have hSa : ¬ S + a = 0 := by omega
    simp only [if_neg h0, if_neg hSa]
    constructor
    · exact div_scale_mono hterm_i hSpos
    · have hle2 : S ≤ S + a := by omega
      exact Nat.div_le_div_left hle2 hSpos

/-- C5 counterexample: on `mW5` (reserves `[0, 10^9]`), a successful
1-lamport buy on outcome 0 leaves `outcome_price 0` unchanged at `0`
(no strict increase — the floor absorbs it) and *changes*
`outcome_price 1` from `10^9` to `999999999`. -/
theorem buy_price_strict_cex :
    (Market.buy_outcome 2 mW5 0 1).2 = .ok 1 ∧
    Market.outcome_price 2 mW5 0 = .ok 0 ∧
    Market.outcome_price 2 (Market.buy_outcome 2 mW5 0 1).1 0 = .ok 0 ∧
    Market.outcome_price 2 mW5 1 = .ok 1000000000 ∧
    Market.outcome_price 2 (Market.buy_outcome 2 mW5 0 1).1 1 = .ok 999999999 := by
  have hm : mintedQuadratic (mW5.supplies.getD 0 0) 1 = 1 := by
    norm_num [mintedQuadratic, mW5]
  refine ⟨?_, ?_, ?_, ?_, ?_⟩ <;>
    first
      | rfl
      | (simp only [Market.buy_outcome, hm]; rfl)

/-- Witness for C5's amended theorem: on `mW4` the 5-lamport buy moves
`outcome_price 0` from `5·10⁸` up to `6·10⁸` and `outcome_price 1` from
`5·10⁸` down to `4·10⁸`. -/
theorem buy_price_monotone_witness :
    (500000000 : Nat) ≤ 600000000 ∧ (400000000 : Nat) ≤ 500000000 := by
  have hm : mintedQuadratic (mW4.supplies.getD 0 0) 5 = 3 := by
    norm_num [mintedQuadratic, mW4]
  have hbuy : Market.buy_outcome 2 mW4 0 5 = (mW4post, .ok 3) := by
    simp only [Market.buy_outcome, hm]
    rfl
  exact buy_price_monotone 2 mW4 mW4post 0 1 5 3 500000000 600000000 500000000
    400000000 hbuy (by decide) (by decide) (by decide) (by decide) (by decide)
    (by decide) (by decide) (by decide) (by rfl) (by rfl) (by rfl) (by rfl)

end Gamma
